import Mathlib

/-!
Verification of the dithering engine of `tools/dither.py`.

The Python fallback implementations `floyd_steinberg_python`,
`atkinson_python` and `ordered_dither` are embedded shallowly:

* a pixel color is a triple of rationals (`float64` arithmetic in the
  source involves only small dyadic rationals, which `float64` represents
  exactly at the scales exercised here, so `ℚ` models it faithfully);
* the mutable `img_array` working buffer is a total function
  `Nat → Nat → Color` updated pointwise, mirroring each in-place write;
* `np.argmin` is a first-minimum scan; on an empty palette the source
  raises (broadcast/argmin `ValueError`), modelled with `Except`;
* `np.clip(_, 0, 255).astype(np.uint8)` is clamp-then-floor;
  the ordered path stores int palette entries into a `uint8` array,
  which truncates mod 256.
-/

namespace ZineDither

/-- An RGB color with rational channels (models a float64 triple). -/
abbrev Color := ℚ × ℚ × ℚ

/-- The image / working buffer: `b y x` is the color at row `y`, column `x`.
Coordinates outside the image are never read or written by the engine. -/
abbrev Buffer := Nat → Nat → Color

/-- Componentwise addition (numpy `+=` on a pixel). -/
def addC (a b : Color) : Color := (a.1 + b.1, a.2.1 + b.2.1, a.2.2 + b.2.2)

/-- Componentwise subtraction (`old_pixel - new_pixel`). -/
def subC (a b : Color) : Color := (a.1 - b.1, a.2.1 - b.2.1, a.2.2 - b.2.2)

/-- Scalar multiple of a color (`error * 7 / 16` and friends). -/
def smulC (q : ℚ) (a : Color) : Color := (q * a.1, q * a.2.1, q * a.2.2)

/-- Squared Euclidean distance between two colors:
`np.sum((palette - old_pixel) ** 2, axis=1)` for one palette row. -/
def dist2 (p c : Color) : ℚ :=
  (p.1 - c.1) ^ 2 + (p.2.1 - c.2.1) ^ 2 + (p.2.2 - c.2.2) ^ 2

/-- `np.argmin` auxiliary scan: `bi` is the index of the best value seen so
far, `bv` that value, `i` the index of the head of `ds`.  numpy keeps the
first occurrence of the minimum, hence the strict `<`. -/
def argminAux : List ℚ → Nat → ℚ → Nat → Nat
  | [], bi, _, _ => bi
  | d :: t, bi, bv, i => if d < bv then argminAux t i d (i + 1) else argminAux t bi bv (i + 1)

/-- `np.argmin` on a list of distances: index of the first minimum
(junk value 0 on the empty list; the source raises there instead, which the
`Except`-level models capture). -/
def argmin : List ℚ → Nat
  | [] => 0
  | d :: t => argminAux t 0 d 1

/-- `nearest_idx = np.argmin(np.sum((palette - old_pixel) ** 2, axis=1))`. -/
def nearestIdx (pal : List Color) (c : Color) : Nat :=
  argmin (pal.map (fun p => dist2 p c))

/-- `new_pixel = palette[nearest_idx]`. -/
def nearestColor (pal : List Color) (c : Color) : Color :=
  pal.getD (nearestIdx pal c) (0, 0, 0)

/-- Overwrite one pixel: `img_array[y, x] = c`. -/
def setAt (b : Buffer) (y x : Nat) (c : Color) : Buffer :=
  fun y1 x1 => if y1 = y ∧ x1 = x then c else b y1 x1

/-- Accumulate into one pixel: `img_array[y, x] += d`. -/
def addAt (b : Buffer) (y x : Nat) (d : Color) : Buffer :=
  fun y1 x1 => if y1 = y ∧ x1 = x then addC (b y1 x1) d else b y1 x1

/-- One iteration of the `floyd_steinberg_python` pixel loop at `(y, x) = p`:
match the working value, write the matched color, then diffuse the error to
the in-bounds neighbors `(x+1,y) 7/16`, `(x-1,y+1) 3/16`, `(x,y+1) 5/16`,
`(x+1,y+1) 1/16`, in the source's write order. -/
def fsStep (pal : List Color) (w h : Nat) (b : Buffer) (p : Nat × Nat) : Buffer :=
  let y := p.1
  let x := p.2
  let oldPixel := b y x
  let newPixel := nearestColor pal oldPixel
  let e := subC oldPixel newPixel
  let b0 := setAt b y x newPixel
  let b1 := if x + 1 < w then addAt b0 y (x + 1) (smulC (7 / 16) e) else b0
  if y + 1 < h then
    let b2 := if 0 < x then addAt b1 (y + 1) (x - 1) (smulC (3 / 16) e) else b1
    let b3 := addAt b2 (y + 1) x (smulC (5 / 16) e)
    if x + 1 < w then addAt b3 (y + 1) (x + 1) (smulC (1 / 16) e) else b3
  else b1

/-- One iteration of the `atkinson_python` pixel loop at `(y, x) = p`:
`error = (old_pixel - new_pixel) / 8` is added unweighted to the six
in-bounds targets, in the source's write order. -/
def atkStep (pal : List Color) (w h : Nat) (b : Buffer) (p : Nat × Nat) : Buffer :=
  let y := p.1
  let x := p.2
  let oldPixel := b y x
  let newPixel := nearestColor pal oldPixel
  let e := smulC (1 / 8) (subC oldPixel newPixel)
  let b0 := setAt b y x newPixel
  let b1 := if x + 1 < w then addAt b0 y (x + 1) e else b0
  let b2 := if x + 2 < w then addAt b1 y (x + 2) e else b1
  let b3 :=
    if y + 1 < h then
      let c1 := if 0 < x then addAt b2 (y + 1) (x - 1) e else b2
      let c2 := addAt c1 (y + 1) x e
      if x + 1 < w then addAt c2 (y + 1) (x + 1) e else c2
    else b2
  if y + 2 < h then addAt b3 (y + 2) x e else b3

/-- The raster scan order of the nested loops
`for y in range(height): for x in range(width)`. -/
def raster (h w : Nat) : List (Nat × Nat) :=
  (List.range h).flatMap fun y => (List.range w).map fun x => (y, x)

/-- The whole Floyd-Steinberg pixel loop on the working buffer. -/
def fsRun (pal : List Color) (h w : Nat) (img : Buffer) : Buffer :=
  (raster h w).foldl (fsStep pal w h) img

/-- The whole Atkinson pixel loop on the working buffer. -/
def atkRun (pal : List Color) (h w : Nat) (img : Buffer) : Buffer :=
  (raster h w).foldl (atkStep pal w h) img

/-- `np.clip(q, 0, 255)`. -/
def clampQ (q : ℚ) : ℚ := max 0 (min 255 q)

/-- One channel of `np.clip(img_array, 0, 255).astype(np.uint8)`:
clamp to [0, 255], then truncate to an integer (floor on the clamped,
nonnegative value). -/
def clampU8 (q : ℚ) : ℚ := (⌊clampQ q⌋ : ℚ)

/-- `np.clip(c, 0, 255).astype(np.uint8)` on a pixel. -/
def clampU8C (c : Color) : Color := (clampU8 c.1, clampU8 c.2.1, clampU8 c.2.2)

/-- `floyd_steinberg_python`: run the loop, then clamp once, globally. -/
def floydSteinberg (pal : List Color) (h w : Nat) (img : Buffer) : Buffer :=
  fun y x => clampU8C (fsRun pal h w img y x)

/-- `atkinson_python`: run the loop, then clamp once, globally. -/
def atkinson (pal : List Color) (h w : Nat) (img : Buffer) : Buffer :=
  fun y x => clampU8C (atkRun pal h w img y x)

/-- A rational that is an exact byte value 0..255 (a valid uint8 channel). -/
def isByte (q : ℚ) : Prop := q.den = 1 ∧ 0 ≤ q.num ∧ q.num ≤ 255

instance (q : ℚ) : Decidable (isByte q) := by unfold isByte; infer_instance

/-- A color whose three channels are byte values. -/
def isByteC (c : Color) : Prop := isByte c.1 ∧ isByte c.2.1 ∧ isByte c.2.2

instance (c : Color) : Decidable (isByteC c) := by unfold isByteC; infer_instance

/-- Strict raster-scan order on coordinates `(y, x)`: earlier row, or same
row and earlier column. -/
def rLT (p q : Nat × Nat) : Prop := p.1 < q.1 ∨ (p.1 = q.1 ∧ p.2 < q.2)

instance (p q : Nat × Nat) : Decidable (rLT p q) := by unfold rLT; infer_instance

lemma rLT_asymm {p q : Nat × Nat} (h1 : rLT p q) (h2 : rLT q p) : False := by
  rcases h1 with h1 | ⟨h1, h1x⟩ <;> rcases h2 with h2 | ⟨h2, h2x⟩ <;> omega

lemma rLT_irrefl {p : Nat × Nat} (h : rLT p p) : False := rLT_asymm h h

lemma mem_raster {p : Nat × Nat} {h w : Nat} :
    p ∈ raster h w ↔ p.1 < h ∧ p.2 < w := by
  simp only [raster, List.mem_flatMap, List.mem_map, List.mem_range]
  constructor
  · rintro ⟨y, hy, x, hx, rfl⟩
    exact ⟨hy, hx⟩
  · rintro ⟨h1, h2⟩
    exact ⟨p.1, h1, p.2, h2, rfl⟩

lemma raster_succ (h w : Nat) :
    raster (h + 1) w = raster h w ++ (List.range w).map (fun x => (h, x)) := by
  simp [raster, List.range_succ]

lemma raster_pairwise (h w : Nat) : (raster h w).Pairwise rLT := by
  induction h with
  | zero => simp [raster]
  | succ h ih =>
    rw [raster_succ, List.pairwise_append]
    refine ⟨ih, ?_, ?_⟩
    · rw [List.pairwise_map]
      refine (List.pairwise_lt_range w).imp ?_
      intro a b hab
      exact Or.inr ⟨rfl, hab⟩
    · intro a ha b hb
      rcases mem_raster.mp ha with ⟨hay, _⟩
      rcases List.mem_map.mp hb with ⟨x, _, rfl⟩
      exact Or.inl hay

/-! ### The first-minimum scan of `np.argmin` -/

lemma argminAux_inv (t : List ℚ) : ∀ (bi i : Nat) (bv : ℚ),
    (argminAux t bi bv i = bi ∧ ∀ d ∈ t, bv ≤ d) ∨
    (∃ k, k < t.length ∧ argminAux t bi bv i = i + k ∧
      t.getD k 0 < bv ∧ (∀ d ∈ t, t.getD k 0 ≤ d) ∧
      (∀ j, j < k → t.getD k 0 < t.getD j 0)) := by
  induction t with
  | nil =>
    intro bi i bv
    left
    exact ⟨rfl, by simp⟩
  | cons d t ih =>
    intro bi i bv
    by_cases hd : d < bv
    · rcases ih i (i + 1) d with ⟨heq, hall⟩ | ⟨k, hk, heq, hlt, hall, hfirst⟩
      · right
        refine ⟨0, by simp, ?_, by simpa using hd, ?_, by omega⟩
        · simpa [argminAux, hd] using heq
        · intro e he
          rcases List.mem_cons.mp he with rfl | he
          · simp
          · simpa using hall e he
      · right
        refine ⟨k + 1, by simpa using hk, ?_, ?_, ?_, ?_⟩
        · rw [show argminAux (d :: t) bi bv i = argminAux t i d (i + 1) by
            simp [argminAux, hd], heq]
          omega
        · rw [List.getD_cons_succ]
          exact lt_trans hlt hd
        · intro e he
          rw [List.getD_cons_succ]
          rcases List.mem_cons.mp he with rfl | he
          · exact le_of_lt hlt
          · exact hall e he
        · intro j hj
          match j with
          | 0 =>
            rw [List.getD_cons_succ, List.getD_cons_zero]
            exact hlt
          | j + 1 =>
            rw [List.getD_cons_succ, List.getD_cons_succ]
            exact hfirst j (by omega)
    · rcases ih bi (i + 1) bv with ⟨heq, hall⟩ | ⟨k, hk, heq, hlt, hall, hfirst⟩
      · left
        refine ⟨by simpa [argminAux, hd] using heq, ?_⟩
        intro e he
        rcases List.mem_cons.mp he with rfl | he
        · exact le_of_not_lt hd
        · exact hall e he
      · right
        refine ⟨k + 1, by simpa using hk, ?_, ?_, ?_, ?_⟩
        · rw [show argminAux (d :: t) bi bv i = argminAux t bi bv (i + 1) by
            simp [argminAux, hd], heq]
          omega
        · rw [List.getD_cons_succ]
          exact hlt
        · intro e he
          rw [List.getD_cons_succ]
          rcases List.mem_cons.mp he with rfl | he
          · exact le_of_lt (lt_of_lt_of_le hlt (le_of_not_lt hd))
          · exact hall e he
        · intro j hj
          match j with
          | 0 =>
            rw [List.getD_cons_succ, List.getD_cons_zero]
            exact lt_of_lt_of_le hlt (le_of_not_lt hd)
          | j + 1 =>
            rw [List.getD_cons_succ, List.getD_cons_succ]
            exact hfirst j (by omega)

lemma getD_mem_of_lt {α : Type} (l : List α) (j : Nat) (d : α) (hj : j < l.length) :
    l.getD j d ∈ l := by
  rw [List.getD_eq_getElem l d hj]
  exact List.getElem_mem hj

lemma argmin_spec (l : List ℚ) (hne : l ≠ []) :
    argmin l < l.length ∧
    (∀ j, j < l.length → l.getD (argmin l) 0 ≤ l.getD j 0) ∧
    (∀ j, j < argmin l → l.getD (argmin l) 0 < l.getD j 0) := by
  match l, hne with
  | d :: t, _ =>
    have hrun : argmin (d :: t) = argminAux t 0 d 1 := rfl
    rcases argminAux_inv t 0 1 d with ⟨heq, hall⟩ | ⟨k, hk, heq, hlt, hall, hfirst⟩
    · rw [hrun, heq]
      refine ⟨by simp, ?_, by omega⟩
      intro j hj
      match j with
      | 0 => exact le_refl _
      | j + 1 =>
        rw [List.getD_cons_zero, List.getD_cons_succ]
        exact hall _ (getD_mem_of_lt t j 0 (by simpa using hj))
    · rw [hrun, heq]
      have hgd : (d :: t).getD (1 + k) 0 = t.getD k 0 := by
        rw [show 1 + k = k + 1 by omega, List.getD_cons_succ]
      refine ⟨by simp only [List.length_cons]; omega, ?_, ?_⟩
      · intro j hj
        rw [hgd]
        match j with
        | 0 => exact le_of_lt hlt
        | j + 1 =>
          rw [List.getD_cons_succ]
          exact hall _ (getD_mem_of_lt t j 0 (by simpa using hj))
      · intro j hj
        rw [hgd]
        match j with
        | 0 => exact hlt
        | j + 1 =>
          rw [List.getD_cons_succ]
          exact hfirst j (by omega)

/-! ### Properties of the nearest-color matcher -/

lemma dist2_nonneg (p c : Color) : 0 ≤ dist2 p c := by
  unfold dist2
  positivity

lemma dist2_self (c : Color) : dist2 c c = 0 := by
  simp [dist2]

lemma dist2_eq_zero {p c : Color} (h : dist2 p c = 0) : p = c := by
  unfold dist2 at h
  have h1 : p.1 - c.1 = 0 := by nlinarith [sq_nonneg (p.1 - c.1), sq_nonneg (p.2.1 - c.2.1), sq_nonneg (p.2.2 - c.2.2)]
  have h2 : p.2.1 - c.2.1 = 0 := by nlinarith [sq_nonneg (p.1 - c.1), sq_nonneg (p.2.1 - c.2.1), sq_nonneg (p.2.2 - c.2.2)]
  have h3 : p.2.2 - c.2.2 = 0 := by nlinarith [sq_nonneg (p.1 - c.1), sq_nonneg (p.2.1 - c.2.1), sq_nonneg (p.2.2 - c.2.2)]
  have := sub_eq_zero.mp h1
  have := sub_eq_zero.mp h2
  have := sub_eq_zero.mp h3
  exact Prod.ext (by assumption) (Prod.ext (by assumption) (by assumption))

lemma map_dist_getD (pal : List Color) (c : Color) {j : Nat} (hj : j < pal.length) :
    (pal.map (fun p => dist2 p c)).getD j 0 = dist2 (pal.getD j (0, 0, 0)) c := by
  rw [List.getD_eq_getElem _ 0 (by simpa using hj), List.getElem_map,
    List.getD_eq_getElem _ _ hj]

lemma nearestIdx_lt (pal : List Color) (c : Color) (hne : pal ≠ []) :
    nearestIdx pal c < pal.length := by
  have hmne : pal.map (fun p => dist2 p c) ≠ [] := by
    simpa using hne
  have := (argmin_spec _ hmne).1
  simpa [nearestIdx] using this

lemma nearestColor_mem (pal : List Color) (c : Color) (hne : pal ≠ []) :
    nearestColor pal c ∈ pal := by
  rw [nearestColor, List.getD_eq_getElem _ _ (nearestIdx_lt pal c hne)]
  exact List.getElem_mem _

lemma nearestColor_min (pal : List Color) (c : Color) (hne : pal ≠ []) :
    ∀ j, j < pal.length →
      dist2 (nearestColor pal c) c ≤ dist2 (pal.getD j (0, 0, 0)) c := by
  intro j hj
  have hmne : pal.map (fun p => dist2 p c) ≠ [] := by simpa using hne
  have hmin := (argmin_spec _ hmne).2.1 j (by simpa using hj)
  rw [nearestColor, ← map_dist_getD pal c (nearestIdx_lt pal c hne), ← map_dist_getD pal c hj]
  exact hmin

/-- A color already in the palette is matched to itself (possibly at an
earlier index holding an equal color, but the matched value is equal). -/
lemma nearestColor_self (pal : List Color) (c : Color) (hc : c ∈ pal) :
    nearestColor pal c = c := by
  have hne : pal ≠ [] := by rintro rfl; simp at hc
  rcases List.mem_iff_getElem.mp hc with ⟨j, hj, hcj⟩
  have hle := nearestColor_min pal c hne j hj
  rw [List.getD_eq_getElem _ _ hj, hcj, dist2_self] at hle
  exact dist2_eq_zero (le_antisymm hle (dist2_nonneg _ _))

/-- C6: the nearest-color match minimizes the sum of squared per-channel
differences over the palette, returning the entry at the first index
attaining the minimum.  Stated for an arbitrary (unconstrained) color
vector `c` and any non-empty palette. -/
theorem C6_nearest_match (pal : List Color) (c : Color) (hne : pal ≠ []) :
    nearestIdx pal c < pal.length ∧
    nearestColor pal c = pal.getD (nearestIdx pal c) (0, 0, 0) ∧
    (∀ j, j < pal.length →
      dist2 (pal.getD (nearestIdx pal c) (0, 0, 0)) c ≤ dist2 (pal.getD j (0, 0, 0)) c) ∧
    (∀ j, j < nearestIdx pal c →
      dist2 (pal.getD (nearestIdx pal c) (0, 0, 0)) c < dist2 (pal.getD j (0, 0, 0)) c) := by
  have hmne : pal.map (fun p => dist2 p c) ≠ [] := by simpa using hne
  obtain ⟨hlen, hmin, hfirst⟩ := argmin_spec _ hmne
  have hidx : nearestIdx pal c < pal.length := by simpa [nearestIdx] using hlen
  refine ⟨hidx, rfl, ?_, ?_⟩
  · intro j hj
    have := hmin j (by simpa using hj)
    rw [← map_dist_getD pal c hidx, ← map_dist_getD pal c hj]
    exact this
  · intro j hj
    have hjlen : j < pal.length := lt_trans hj hidx
    have := hfirst j (by simpa [nearestIdx] using hj)
    rw [← map_dist_getD pal c hidx, ← map_dist_getD pal c hjlen]
    exact this

/-! ### Pointwise behavior of one error-diffusion step -/

lemma fsStep_cur (pal : List Color) (w h : Nat) (b : Buffer) (y x : Nat) :
    fsStep pal w h b (y, x) y x = nearestColor pal (b y x) := by
  simp only [fsStep]
  split_ifs <;> simp [setAt, addAt] <;> (try split_ifs) <;> first | rfl | omega

lemma fsStep_right (pal : List Color) (w h : Nat) (b : Buffer) (y x : Nat) (hx : x + 1 < w) :
    fsStep pal w h b (y, x) y (x + 1) =
      addC (b y (x + 1)) (smulC (7 / 16) (subC (b y x) (nearestColor pal (b y x)))) := by
  simp only [fsStep]
  split_ifs <;> simp [setAt, addAt] <;> (try split_ifs) <;> first | rfl | omega

lemma fsStep_dl (pal : List Color) (w h : Nat) (b : Buffer) (y x : Nat)
    (hy : y + 1 < h) (hx : 0 < x) :
    fsStep pal w h b (y, x) (y + 1) (x - 1) =
      addC (b (y + 1) (x - 1)) (smulC (3 / 16) (subC (b y x) (nearestColor pal (b y x)))) := by
  simp only [fsStep]
  split_ifs <;> simp [setAt, addAt] <;> (try split_ifs) <;> first | rfl | omega

lemma fsStep_down (pal : List Color) (w h : Nat) (b : Buffer) (y x : Nat) (hy : y + 1 < h) :
    fsStep pal w h b (y, x) (y + 1) x =
      addC (b (y + 1) x) (smulC (5 / 16) (subC (b y x) (nearestColor pal (b y x)))) := by
  simp only [fsStep]
  split_ifs <;> simp [setAt, addAt] <;> (try split_ifs) <;> first | rfl | omega

lemma fsStep_dr (pal : List Color) (w h : Nat) (b : Buffer) (y x : Nat)
    (hy : y + 1 < h) (hx : x + 1 < w) :
    fsStep pal w h b (y, x) (y + 1) (x + 1) =
      addC (b (y + 1) (x + 1)) (smulC (1 / 16) (subC (b y x) (nearestColor pal (b y x)))) := by
  simp only [fsStep]
  split_ifs <;> simp [setAt, addAt] <;> (try split_ifs) <;> first | rfl | omega

lemma fsStep_untouched (pal : List Color) (w h : Nat) (b : Buffer) (y x y1 x1 : Nat)
    (h0 : ¬(y1 = y ∧ x1 = x)) (h1 : ¬(y1 = y ∧ x1 = x + 1))
    (h2 : ¬(y1 = y + 1 ∧ x1 = x - 1)) (h3 : ¬(y1 = y + 1 ∧ x1 = x))
    (h4 : ¬(y1 = y + 1 ∧ x1 = x + 1)) :
    fsStep pal w h b (y, x) y1 x1 = b y1 x1 := by
  simp only [fsStep]
  split_ifs <;> simp [setAt, addAt] <;> (try split_ifs) <;> first | rfl | omega

lemma atkStep_cur (pal : List Color) (w h : Nat) (b : Buffer) (y x : Nat) :
    atkStep pal w h b (y, x) y x = nearestColor pal (b y x) := by
  simp only [atkStep]
  split_ifs <;> simp [setAt, addAt] <;> (try split_ifs) <;> first | rfl | omega

lemma atkStep_r1 (pal : List Color) (w h : Nat) (b : Buffer) (y x : Nat) (hx : x + 1 < w) :
    atkStep pal w h b (y, x) y (x + 1) =
      addC (b y (x + 1)) (smulC (1 / 8) (subC (b y x) (nearestColor pal (b y x)))) := by
  simp only [atkStep]
  split_ifs <;> simp [setAt, addAt] <;> (try split_ifs) <;> first | rfl | omega

lemma atkStep_r2 (pal : List Color) (w h : Nat) (b : Buffer) (y x : Nat) (hx : x + 2 < w) :
    atkStep pal w h b (y, x) y (x + 2) =
      addC (b y (x + 2)) (smulC (1 / 8) (subC (b y x) (nearestColor pal (b y x)))) := by
  simp only [atkStep]
  split_ifs <;> simp [setAt, addAt] <;> (try split_ifs) <;> first | rfl | omega

lemma atkStep_dl (pal : List Color) (w h : Nat) (b : Buffer) (y x : Nat)
    (hy : y + 1 < h) (hx : 0 < x) :
    atkStep pal w h b (y, x) (y + 1) (x - 1) =
      addC (b (y + 1) (x - 1)) (smulC (1 / 8) (subC (b y x) (nearestColor pal (b y x)))) := by
  simp only [atkStep]
  split_ifs <;> simp [setAt, addAt] <;> (try split_ifs) <;> first | rfl | omega

lemma atkStep_down (pal : List Color) (w h : Nat) (b : Buffer) (y x : Nat) (hy : y + 1 < h) :
    atkStep pal w h b (y, x) (y + 1) x =
      addC (b (y + 1) x) (smulC (1 / 8) (subC (b y x) (nearestColor pal (b y x)))) := by
  simp only [atkStep]
  split_ifs <;> simp [setAt, addAt] <;> (try split_ifs) <;> first | rfl | omega

lemma atkStep_dr (pal : List Color) (w h : Nat) (b : Buffer) (y x : Nat)
    (hy : y + 1 < h) (hx : x + 1 < w) :
    atkStep pal w h b (y, x) (y + 1) (x + 1) =
      addC (b (y + 1) (x + 1)) (smulC (1 / 8) (subC (b y x) (nearestColor pal (b y x)))) := by
  simp only [atkStep]
  split_ifs <;> simp [setAt, addAt] <;> (try split_ifs) <;> first | rfl | omega

lemma atkStep_dd (pal : List Color) (w h : Nat) (b : Buffer) (y x : Nat) (hy : y + 2 < h) :
    atkStep pal w h b (y, x) (y + 2) x =
      addC (b (y + 2) x) (smulC (1 / 8) (subC (b y x) (nearestColor pal (b y x)))) := by
  simp only [atkStep]
  split_ifs <;> simp [setAt, addAt] <;> (try split_ifs) <;> first | rfl | omega

lemma atkStep_untouched (pal : List Color) (w h : Nat) (b : Buffer) (y x y1 x1 : Nat)
    (h0 : ¬(y1 = y ∧ x1 = x)) (h1 : ¬(y1 = y ∧ x1 = x + 1))
    (h2 : ¬(y1 = y ∧ x1 = x + 2)) (h3 : ¬(y1 = y + 1 ∧ x1 = x - 1))
    (h4 : ¬(y1 = y + 1 ∧ x1 = x)) (h5 : ¬(y1 = y + 1 ∧ x1 = x + 1))
    (h6 : ¬(y1 = y + 2 ∧ x1 = x)) :
    atkStep pal w h b (y, x) y1 x1 = b y1 x1 := by
  simp only [atkStep]
  split_ifs <;> simp [setAt, addAt] <;> (try split_ifs) <;> first | rfl | omega

/-- All-white test image (every pixel `(255, 255, 255)`). -/
def whiteImg : Buffer := fun _ _ => (255, 255, 255)

/-- Single-entry black palette `[(0, 0, 0)]`. -/
def blackPal : List Color := [(0, 0, 0)]

/-- C10: in both error-diffusion engines, one pixel step can only modify the
current coordinate (where the matched color is written) and coordinates
strictly later in raster order; every coordinate that is not the current one
and not strictly later keeps its value.  Hence a written output value is
never modified again before the final clamp, and each pixel's result depends
only on pixels earlier in scan order. -/
theorem C10_forward_writes_only (pal : List Color) (w h : Nat) (b : Buffer)
    (p q : Nat × Nat) (hlt : ¬ rLT p q) (hne : q ≠ p) :
    fsStep pal w h b p q.1 q.2 = b q.1 q.2 ∧
    atkStep pal w h b p q.1 q.2 = b q.1 q.2 := by
  have hq : ¬(q.1 = p.1 ∧ q.2 = p.2) := fun hc => hne (Prod.ext_iff.mpr hc)
  simp only [rLT] at hlt
  constructor
  · have := fsStep_untouched pal w h b p.1 p.2 q.1 q.2 hq (by omega) (by omega) (by omega) (by omega)
    simpa using this
  · have := atkStep_untouched pal w h b p.1 p.2 q.1 q.2 hq (by omega) (by omega) (by omega)
      (by omega) (by omega) (by omega)
    simpa using this

/-- Witness for C10: the step at `(1, 1)` of a 3x3 all-white image leaves
the earlier coordinate `(1, 0)` untouched, for both kernels. -/
theorem C10_forward_writes_only_witness :
    fsStep blackPal 3 3 whiteImg (1, 1) 1 0 = whiteImg 1 0 ∧
    atkStep blackPal 3 3 whiteImg (1, 1) 1 0 = whiteImg 1 0 :=
  C10_forward_writes_only blackPal 3 3 whiteImg (1, 1) (1, 0) (by decide) (by decide)

/-- C3: the Floyd-Steinberg step diffuses the quantization error
`e = old - matched` with exactly the kernel `(+1,0,7/16)`, `(-1,+1,3/16)`,
`(0,+1,5/16)`, `(+1,+1,1/16)` to in-bounds neighbors, touching nothing else;
and on the concrete 2x1 all-white image with palette `[(0,0,0)]`,
pixel `(0,0)` is matched to `(0,0,0)` while the working value of pixel
`(1,0)` at the moment it is matched equals `255 + 255*7/16` per channel. -/
theorem C3_fs_kernel :
    (∀ (pal : List Color) (w h : Nat) (b : Buffer) (y x : Nat),
      fsStep pal w h b (y, x) y x = nearestColor pal (b y x) ∧
      (x + 1 < w →
        fsStep pal w h b (y, x) y (x + 1) =
          addC (b y (x + 1)) (smulC (7 / 16) (subC (b y x) (nearestColor pal (b y x))))) ∧
      (y + 1 < h → 0 < x →
        fsStep pal w h b (y, x) (y + 1) (x - 1) =
          addC (b (y + 1) (x - 1)) (smulC (3 / 16) (subC (b y x) (nearestColor pal (b y x))))) ∧
      (y + 1 < h →
        fsStep pal w h b (y, x) (y + 1) x =
          addC (b (y + 1) x) (smulC (5 / 16) (subC (b y x) (nearestColor pal (b y x))))) ∧
      (y + 1 < h → x + 1 < w →
        fsStep pal w h b (y, x) (y + 1) (x + 1) =
          addC (b (y + 1) (x + 1)) (smulC (1 / 16) (subC (b y x) (nearestColor pal (b y x))))) ∧
      (∀ y1 x1, ¬(y1 = y ∧ x1 = x) → ¬(y1 = y ∧ x1 = x + 1) →
        ¬(y1 = y + 1 ∧ x1 = x - 1) → ¬(y1 = y + 1 ∧ x1 = x) →
        ¬(y1 = y + 1 ∧ x1 = x + 1) →
        fsStep pal w h b (y, x) y1 x1 = b y1 x1)) ∧
    floydSteinberg blackPal 1 2 whiteImg 0 0 = (0, 0, 0) ∧
    fsStep blackPal 2 1 whiteImg (0, 0) 0 1 =
      (255 + 255 * (7 / 16), 255 + 255 * (7 / 16), 255 + 255 * (7 / 16)) := by
  refine ⟨?_, ?_, ?_⟩
  · intro pal w h b y x
    exact ⟨fsStep_cur pal w h b y x,
      fun hx => fsStep_right pal w h b y x hx,
      fun hy hx => fsStep_dl pal w h b y x hy hx,
      fun hy => fsStep_down pal w h b y x hy,
      fun hy hx => fsStep_dr pal w h b y x hy hx,
      fun y1 x1 h0 h1 h2 h3 h4 => fsStep_untouched pal w h b y x y1 x1 h0 h1 h2 h3 h4⟩
  · show clampU8C (fsRun blackPal 1 2 whiteImg 0 0) = (0, 0, 0)
    have hrun : fsRun blackPal 1 2 whiteImg 0 0 =
        fsStep blackPal 2 1 (fsStep blackPal 2 1 whiteImg (0, 0)) (0, 1) 0 0 := rfl
    have h01 : fsStep blackPal 2 1 (fsStep blackPal 2 1 whiteImg (0, 0)) (0, 1) 0 0 =
        fsStep blackPal 2 1 whiteImg (0, 0) 0 0 :=
      fsStep_untouched blackPal 2 1 _ 0 1 0 0 (by omega) (by omega) (by omega) (by omega) (by omega)
    have h00 : fsStep blackPal 2 1 whiteImg (0, 0) 0 0 = (0, 0, 0) :=
      (fsStep_cur blackPal 2 1 whiteImg 0 0).trans rfl
    rw [hrun, h01, h00]
    norm_num [clampU8C, clampU8, clampQ]
  · rw [fsStep_right blackPal 2 1 whiteImg 0 0 (by omega),
      show nearestColor blackPal (whiteImg 0 0) = (0, 0, 0) from rfl]
    norm_num [whiteImg, addC, smulC, subC]

/-- Witness for C3: the kernel equations instantiated at the pixel `(0, 1)`
of a 2x3 all-white image, every in-bounds hypothesis discharged. -/
theorem C3_fs_kernel_witness :
    fsStep blackPal 3 2 whiteImg (0, 1) 0 1 = nearestColor blackPal (whiteImg 0 1) ∧
    fsStep blackPal 3 2 whiteImg (0, 1) 0 2 =
      addC (whiteImg 0 2) (smulC (7 / 16) (subC (whiteImg 0 1) (nearestColor blackPal (whiteImg 0 1)))) ∧
    fsStep blackPal 3 2 whiteImg (0, 1) 1 0 =
      addC (whiteImg 1 0) (smulC (3 / 16) (subC (whiteImg 0 1) (nearestColor blackPal (whiteImg 0 1)))) ∧
    fsStep blackPal 3 2 whiteImg (0, 1) 1 1 =
      addC (whiteImg 1 1) (smulC (5 / 16) (subC (whiteImg 0 1) (nearestColor blackPal (whiteImg 0 1)))) ∧
    fsStep blackPal 3 2 whiteImg (0, 1) 1 2 =
      addC (whiteImg 1 2) (smulC (1 / 16) (subC (whiteImg 0 1) (nearestColor blackPal (whiteImg 0 1)))) ∧
    fsStep blackPal 3 2 whiteImg (0, 1) 0 0 = whiteImg 0 0 := by
  obtain ⟨hgen, -, -⟩ := C3_fs_kernel
  obtain ⟨hc, hr, hdl, hdn, hdr, hu⟩ := hgen blackPal 3 2 whiteImg 0 1
  exact ⟨hc, hr (by omega), hdl (by omega) (by omega), hdn (by omega), hdr (by omega) (by omega),
    hu 0 0 (by omega) (by omega) (by omega) (by omega) (by omega)⟩

/-- C4: the Atkinson step adds `e = (old - matched)/8` to exactly the six
kernel targets `(+1,0)`, `(+2,0)`, `(-1,+1)`, `(0,+1)`, `(+1,+1)`, `(0,+2)`;
when all six are in bounds the total propagated amount is `6/8` of the
quantization error, the remaining `2/8` being propagated nowhere (all other
coordinates are untouched). -/
theorem C4_atkinson_loss (pal : List Color) (w h : Nat) (b : Buffer) (y x : Nat)
    (hx0 : 0 < x) (hx2 : x + 2 < w) (hy2 : y + 2 < h) :
    (subC (atkStep pal w h b (y, x) y (x + 1)) (b y (x + 1)) =
        smulC (1 / 8) (subC (b y x) (nearestColor pal (b y x))) ∧
      subC (atkStep pal w h b (y, x) y (x + 2)) (b y (x + 2)) =
        smulC (1 / 8) (subC (b y x) (nearestColor pal (b y x))) ∧
      subC (atkStep pal w h b (y, x) (y + 1) (x - 1)) (b (y + 1) (x - 1)) =
        smulC (1 / 8) (subC (b y x) (nearestColor pal (b y x))) ∧
      subC (atkStep pal w h b (y, x) (y + 1) x) (b (y + 1) x) =
        smulC (1 / 8) (subC (b y x) (nearestColor pal (b y x))) ∧
      subC (atkStep pal w h b (y, x) (y + 1) (x + 1)) (b (y + 1) (x + 1)) =
        smulC (1 / 8) (subC (b y x) (nearestColor pal (b y x))) ∧
      subC (atkStep pal w h b (y, x) (y + 2) x) (b (y + 2) x) =
        smulC (1 / 8) (subC (b y x) (nearestColor pal (b y x)))) ∧
    addC (subC (atkStep pal w h b (y, x) y (x + 1)) (b y (x + 1)))
      (addC (subC (atkStep pal w h b (y, x) y (x + 2)) (b y (x + 2)))
        (addC (subC (atkStep pal w h b (y, x) (y + 1) (x - 1)) (b (y + 1) (x - 1)))
          (addC (subC (atkStep pal w h b (y, x) (y + 1) x) (b (y + 1) x))
            (addC (subC (atkStep pal w h b (y, x) (y + 1) (x + 1)) (b (y + 1) (x + 1)))
              (subC (atkStep pal w h b (y, x) (y + 2) x) (b (y + 2) x)))))) =
      smulC (6 / 8) (subC (b y x) (nearestColor pal (b y x))) ∧
    (∀ y1 x1, ¬(y1 = y ∧ x1 = x) → ¬(y1 = y ∧ x1 = x + 1) →
      ¬(y1 = y ∧ x1 = x + 2) → ¬(y1 = y + 1 ∧ x1 = x - 1) →
      ¬(y1 = y + 1 ∧ x1 = x) → ¬(y1 = y + 1 ∧ x1 = x + 1) →
      ¬(y1 = y + 2 ∧ x1 = x) →
      atkStep pal w h b (y, x) y1 x1 = b y1 x1) ∧
    atkStep pal w h b (y, x) y x = nearestColor pal (b y x) := by
  have hr1 := atkStep_r1 pal w h b y x (by omega)
  have hr2 := atkStep_r2 pal w h b y x hx2
  have hdl := atkStep_dl pal w h b y x (by omega) hx0
  have hdn := atkStep_down pal w h b y x (by omega)
  have hdr := atkStep_dr pal w h b y x (by omega) (by omega)
  have hdd := atkStep_dd pal w h b y x hy2
  have hdelta : ∀ u v : Color, subC (addC u v) u = v := by
    rintro ⟨u1, u2, u3⟩ ⟨v1, v2, v3⟩
    simp only [subC, addC, Prod.mk.injEq]
    refine ⟨by ring, by ring, by ring⟩
  refine ⟨⟨?_, ?_, ?_, ?_, ?_, ?_⟩, ?_, ?_, atkStep_cur pal w h b y x⟩
  · rw [hr1]; exact hdelta _ _
  · rw [hr2]; exact hdelta _ _
  · rw [hdl]; exact hdelta _ _
  · rw [hdn]; exact hdelta _ _
  · rw [hdr]; exact hdelta _ _
  · rw [hdd]; exact hdelta _ _
  · rw [hr1, hr2, hdl, hdn, hdr, hdd]
    rw [hdelta, hdelta, hdelta, hdelta, hdelta, hdelta]
    generalize subC (b y x) (nearestColor pal (b y x)) = E
    obtain ⟨e1, e2, e3⟩ := E
    simp only [addC, smulC, Prod.mk.injEq]
    refine ⟨by ring, by ring, by ring⟩
  · intro y1 x1 h0 h1 h2 h3 h4 h5 h6
    exact atkStep_untouched pal w h b y x y1 x1 h0 h1 h2 h3 h4 h5 h6

/-- Witness for C4 at pixel `(0, 1)` of a 3x4 all-white image. -/
theorem C4_atkinson_loss_witness :
    addC (subC (atkStep blackPal 4 3 whiteImg (0, 1) 0 2) (whiteImg 0 2))
      (addC (subC (atkStep blackPal 4 3 whiteImg (0, 1) 0 3) (whiteImg 0 3))
        (addC (subC (atkStep blackPal 4 3 whiteImg (0, 1) 1 0) (whiteImg 1 0))
          (addC (subC (atkStep blackPal 4 3 whiteImg (0, 1) 1 1) (whiteImg 1 1))
            (addC (subC (atkStep blackPal 4 3 whiteImg (0, 1) 1 2) (whiteImg 1 2))
              (subC (atkStep blackPal 4 3 whiteImg (0, 1) 2 1) (whiteImg 2 1)))))) =
      smulC (6 / 8) (subC (whiteImg 0 1) (nearestColor blackPal (whiteImg 0 1))) :=
  (C4_atkinson_loss blackPal 4 3 whiteImg 0 1 (by omega) (by omega) (by omega)).2.1

/-! ### Componentwise arithmetic facts -/

lemma subC_self (u : Color) : subC u u = (0, 0, 0) := by
  obtain ⟨u1, u2, u3⟩ := u
  simp [subC]

lemma smulC_zero (q : ℚ) : smulC q (0, 0, 0) = (0, 0, 0) := by
  simp [smulC]

lemma addC_zero (u : Color) : addC u (0, 0, 0) = u := by
  obtain ⟨u1, u2, u3⟩ := u
  simp [addC]

lemma smulC_zero' (q : ℚ) : smulC q (0 : Color) = (0 : Color) := smulC_zero q

lemma addC_zero' (u : Color) : addC u (0 : Color) = u := addC_zero u

/-! ### The raster fold: processed pixels keep their matched value -/

lemma fsStep_no_backward (pal : List Color) (w h : Nat) (b : Buffer) (q : Nat × Nat)
    (y1 x1 : Nat) (hlt : ¬ rLT q (y1, x1)) (hne : (y1, x1) ≠ q) :
    fsStep pal w h b q y1 x1 = b y1 x1 := by
  have hq : ¬(y1 = q.1 ∧ x1 = q.2) := fun hc => hne (Prod.ext_iff.mpr ⟨hc.1, hc.2⟩)
  simp only [rLT] at hlt
  have := fsStep_untouched pal w h b q.1 q.2 y1 x1 hq (by omega) (by omega) (by omega) (by omega)
  simpa using this

lemma atkStep_no_backward (pal : List Color) (w h : Nat) (b : Buffer) (q : Nat × Nat)
    (y1 x1 : Nat) (hlt : ¬ rLT q (y1, x1)) (hne : (y1, x1) ≠ q) :
    atkStep pal w h b q y1 x1 = b y1 x1 := by
  have hq : ¬(y1 = q.1 ∧ x1 = q.2) := fun hc => hne (Prod.ext_iff.mpr ⟨hc.1, hc.2⟩)
  simp only [rLT] at hlt
  have := atkStep_untouched pal w h b q.1 q.2 y1 x1 hq (by omega) (by omega) (by omega)
    (by omega) (by omega) (by omega)
  simpa using this

lemma foldl_step_untouched (S : Buffer → Nat × Nat → Buffer)
    (hS : ∀ (b : Buffer) (q : Nat × Nat) (y1 x1 : Nat),
      ¬ rLT q (y1, x1) → (y1, x1) ≠ q → S b q y1 x1 = b y1 x1) :
    ∀ (l : List (Nat × Nat)) (b : Buffer) (p : Nat × Nat),
      (∀ q ∈ l, rLT p q) → l.foldl S b p.1 p.2 = b p.1 p.2 := by
  intro l
  induction l with
  | nil => intro b p _; rfl
  | cons q t ih =>
    intro b p hall
    have hq := hall q (List.mem_cons_self q t)
    have hstep : S b q p.1 p.2 = b p.1 p.2 := by
      refine hS b q p.1 p.2 (fun hlt => rLT_asymm hq ?_) (fun heq => ?_)
      · simpa using hlt
      · exact rLT_irrefl (by simpa [← heq] using hq)
    rw [List.foldl_cons, ih (S b q) p (fun r hr => hall r (List.mem_cons_of_mem q hr)), hstep]

lemma foldl_step_mem (S : Buffer → Nat × Nat → Buffer) (pal : List Color) (hpal : pal ≠ [])
    (hcur : ∀ (b : Buffer) (q : Nat × Nat), S b q q.1 q.2 = nearestColor pal (b q.1 q.2))
    (hS : ∀ (b : Buffer) (q : Nat × Nat) (y1 x1 : Nat),
      ¬ rLT q (y1, x1) → (y1, x1) ≠ q → S b q y1 x1 = b y1 x1) :
    ∀ (l : List (Nat × Nat)), l.Pairwise rLT → ∀ (b : Buffer) (p : Nat × Nat), p ∈ l →
      l.foldl S b p.1 p.2 ∈ pal := by
  intro l
  induction l with
  | nil => intro _ b p hp; simp at hp
  | cons q t ih =>
    intro hpw b p hp
    rw [List.pairwise_cons] at hpw
    rw [List.foldl_cons]
    rcases List.mem_cons.mp hp with hpq | hpt
    · subst hpq
      rw [foldl_step_untouched S hS t (S b p) p hpw.1, hcur]
      exact nearestColor_mem pal _ hpal
    · exact ih hpw.2 (S b q) p hpt

/-! ### Except-level models of the three engines

The source performs no input validation.  An empty palette makes
`np.sum((palette - old_pixel) ** 2, axis=1)` / `np.argmin` raise a
`ValueError` at the first pixel of the loop (in `ordered_dither`, the
broadcast `row_pixels[:, None, :] - palette_array[None, :, :]` raises an
`IndexError` at the first row, because `np.array([])` is one-dimensional).
`ordered_dither` additionally computes the tile counts of the threshold
map from the *requested* `pattern_size` while tiling the *fallback*
matrix: `pattern_size = 0` raises `ZeroDivisionError` at
`height // pattern_size`, and if the tiled threshold, sliced to
`[:height, :width]`, is smaller than the image, the addition
`img_array + threshold[:, :, np.newaxis] - 128` raises a broadcast
`ValueError`.  These exceptions are modelled with `Except`. -/

inductive PyErr where
  | valueError
  | zeroDivisionError
  | indexError
deriving DecidableEq

/-- One Floyd-Steinberg loop iteration, raising at the nearest-color
search when the palette is empty (numpy broadcast/argmin `ValueError`). -/
def fsStepE (pal : List Color) (w h : Nat) (b : Buffer) (p : Nat × Nat) :
    Except PyErr Buffer :=
  if pal = [] then .error .valueError else .ok (fsStep pal w h b p)

/-- One Atkinson loop iteration, with the same failure behavior. -/
def atkStepE (pal : List Color) (w h : Nat) (b : Buffer) (p : Nat × Nat) :
    Except PyErr Buffer :=
  if pal = [] then .error .valueError else .ok (atkStep pal w h b p)

/-- The `floyd_steinberg_python` loop with its runtime failure. -/
def fsRunE (pal : List Color) (h w : Nat) (img : Buffer) : Except PyErr Buffer :=
  (raster h w).foldlM (fsStepE pal w h) img

/-- The `atkinson_python` loop with its runtime failure. -/
def atkRunE (pal : List Color) (h w : Nat) (img : Buffer) : Except PyErr Buffer :=
  (raster h w).foldlM (atkStepE pal w h) img

/-- `floyd_steinberg_python` including the final global clamp. -/
def floydSteinbergE (pal : List Color) (h w : Nat) (img : Buffer) : Except PyErr Buffer :=
  (fsRunE pal h w img).map fun b => fun y x => clampU8C (b y x)

/-- `atkinson_python` including the final global clamp. -/
def atkinsonE (pal : List Color) (h w : Nat) (img : Buffer) : Except PyErr Buffer :=
  (atkRunE pal h w img).map fun b => fun y x => clampU8C (b y x)

/-- numpy matrix division: `np.array(m) / d`. -/
def normMat (d : ℚ) (m : List (List ℚ)) : List (List ℚ) :=
  m.map fun r => r.map fun v => v / d

/-- `patterns[2] = np.array([[0, 2], [3, 1]]) / 4`. -/
def bayer2 : List (List ℚ) := normMat 4 [[0, 2], [3, 1]]

/-- `patterns[4] = np.array([[0,8,2,10],[12,4,14,6],[3,11,1,9],[15,7,13,5]]) / 16`. -/
def bayer4 : List (List ℚ) :=
  normMat 16 [[0, 8, 2, 10], [12, 4, 14, 6], [3, 11, 1, 9], [15, 7, 13, 5]]

/-- `patterns[8]`: the standard 8x8 Bayer matrix over 64. -/
def bayer8 : List (List ℚ) :=
  normMat 64
    [[0, 32, 8, 40, 2, 34, 10, 42],
     [48, 16, 56, 24, 50, 18, 58, 26],
     [12, 44, 4, 36, 14, 46, 6, 38],
     [60, 28, 52, 20, 62, 30, 54, 22],
     [3, 35, 11, 43, 1, 33, 9, 41],
     [51, 19, 59, 27, 49, 17, 57, 25],
     [15, 47, 7, 39, 13, 45, 5, 37],
     [63, 31, 55, 23, 61, 29, 53, 21]]

/-- `pattern = patterns.get(pattern_size, patterns[4])`: the size-4 matrix
is the silent fallback for any unrecognized size. -/
def patternFor (s : Nat) : List (List ℚ) :=
  if s = 2 then bayer2 else if s = 4 then bayer4 else if s = 8 then bayer8 else bayer4

/-- Matrix lookup `m[i][j]`. -/
def matAt (m : List (List ℚ)) (i j : Nat) : ℚ := (m.getD i []).getD j 0

/-- Storing an integer into the `uint8` result array truncates mod 256. -/
def wrapU8 (q : ℚ) : ℚ := ((⌊q⌋ % 256 : ℤ) : ℚ)

/-- `result[y] = palette_array[nearest_indices]` into a `uint8` array. -/
def wrapU8C (c : Color) : Color := (wrapU8 c.1, wrapU8 c.2.1, wrapU8 c.2.2)

/-- One pixel of `ordered_dither`: the tiled-and-sliced threshold map gives
`t = pattern[y mod n][x mod n] * 255`; the adjusted color
`img[y, x] + t - 128` (per channel) is matched against the palette and the
matched entry is written directly to the output. -/
def orderedPixel (s : Nat) (pal : List Color) (img : Buffer) (y x : Nat) : Color :=
  let m := patternFor s
  let n := m.length
  let t := matAt m (y % n) (x % n) * 255
  nearestColor pal (addC (img y x) (t - 128, t - 128, t - 128))

/-- `ordered_dither(image, palette, pattern_size)`: fails with
`ZeroDivisionError` for size 0; fails with a broadcast `ValueError` when the
threshold map, tiled `height // pattern_size + 1` by
`width // pattern_size + 1` times (using the requested size) from the actual
matrix and sliced to the image, is smaller than the image; fails with an
`IndexError` at the first row when the palette is empty; otherwise produces
the per-pixel matched output. -/
def orderedDitherE (s : Nat) (pal : List Color) (h w : Nat) (img : Buffer) :
    Except PyErr Buffer :=
  if s = 0 then .error .zeroDivisionError
  else if (patternFor s).length * (h / s + 1) < h ∨ (patternFor s).length * (w / s + 1) < w then
    .error .valueError
  else if pal = [] ∧ 0 < h then .error .indexError
  else .ok fun y x => wrapU8C (orderedPixel s pal img y x)

/-- The five algorithm selectors of the CLI. -/
inductive Algo where
  | floydSteinberg
  | atkinson
  | ordered2x2
  | ordered4x4
  | ordered8x8
deriving DecidableEq

/-- Dispatch on the `--algorithm` selector (`ordered-NxN` passes `N` as the
matrix size). -/
def runAlgoE : Algo → List Color → Nat → Nat → Buffer → Except PyErr Buffer
  | .floydSteinberg => floydSteinbergE
  | .atkinson => atkinsonE
  | .ordered2x2 => orderedDitherE 2
  | .ordered4x4 => orderedDitherE 4
  | .ordered8x8 => orderedDitherE 8

lemma foldlM_ok {ε β α : Type} (f : β → α → β) :
    ∀ (l : List α) (b : β),
      (l.foldlM (fun b a => (Except.ok (f b a) : Except ε β)) b) = .ok (l.foldl f b) := by
  intro l
  induction l with
  | nil => intro b; rfl
  | cons a t ih => intro b; simpa [List.foldlM_cons] using ih (f b a)

lemma fsRunE_ok (pal : List Color) (hpal : pal ≠ []) (h w : Nat) (img : Buffer) :
    fsRunE pal h w img = .ok (fsRun pal h w img) := by
  unfold fsRunE fsRun
  have hstep : fsStepE pal w h = fun b p => (Except.ok (fsStep pal w h b p) : Except PyErr Buffer) := by
    funext b p
    simp [fsStepE, hpal]
  rw [hstep, foldlM_ok]

lemma atkRunE_ok (pal : List Color) (hpal : pal ≠ []) (h w : Nat) (img : Buffer) :
    atkRunE pal h w img = .ok (atkRun pal h w img) := by
  unfold atkRunE atkRun
  have hstep : atkStepE pal w h = fun b p => (Except.ok (atkStep pal w h b p) : Except PyErr Buffer) := by
    funext b p
    simp [atkStepE, hpal]
  rw [hstep, foldlM_ok]

lemma clampU8_byte {q : ℚ} (hq : isByte q) : clampU8 q = q := by
  obtain ⟨hden, h0, h255⟩ := hq
  have hqint : ((q.num : ℚ)) = q := by
    rw [← Rat.den_eq_one_iff]
    exact hden
  have hq0 : (0 : ℚ) ≤ q := by
    rw [← hqint]
    exact_mod_cast h0
  have hq255 : q ≤ 255 := by
    rw [← hqint]
    exact_mod_cast h255
  have hcl : clampQ q = q := by
    unfold clampQ
    rw [min_eq_right hq255, max_eq_right hq0]
  rw [clampU8, hcl, ← hqint, Int.floor_intCast]

lemma clampU8C_byte {c : Color} (hc : isByteC c) : clampU8C c = c := by
  obtain ⟨h1, h2, h3⟩ := hc
  obtain ⟨c1, c2, c3⟩ := c
  simp only [clampU8C]
  rw [clampU8_byte h1, clampU8_byte h2, clampU8_byte h3]

lemma wrapU8_byte {q : ℚ} (hq : isByte q) : wrapU8 q = q := by
  obtain ⟨hden, h0, h255⟩ := hq
  have hqint : ((q.num : ℚ)) = q := by
    rw [← Rat.den_eq_one_iff]
    exact hden
  rw [wrapU8, ← hqint, Int.floor_intCast, Int.emod_eq_of_lt h0 (by omega)]

lemma wrapU8C_byte {c : Color} (hc : isByteC c) : wrapU8C c = c := by
  obtain ⟨h1, h2, h3⟩ := hc
  obtain ⟨c1, c2, c3⟩ := c
  simp only [wrapU8C]
  rw [wrapU8_byte h1, wrapU8_byte h2, wrapU8_byte h3]

lemma tiles_cover (s h : Nat) (hs : 0 < s) : h < s * (h / s + 1) :=
  calc h = s * (h / s) + h % s := (Nat.div_add_mod h s).symm
    _ < s * (h / s) + s := by have := Nat.mod_lt h hs; omega
    _ = s * (h / s + 1) := by ring

lemma orderedDitherE_ok (s : Nat) (hs : s = 2 ∨ s = 4 ∨ s = 8) (pal : List Color)
    (hpal : pal ≠ []) (h w : Nat) (img : Buffer) :
    orderedDitherE s pal h w img = .ok fun y x => wrapU8C (orderedPixel s pal img y x) := by
  have hlen : (patternFor s).length = s := by
    rcases hs with rfl | rfl | rfl <;> rfl
  have hs0 : s ≠ 0 := by omega
  rw [orderedDitherE, if_neg hs0, if_neg, if_neg]
  · exact fun hc => hpal hc.1
  · rw [hlen]
    push_neg
    exact ⟨le_of_lt (tiles_cover s h (by omega)), le_of_lt (tiles_cover s w (by omega))⟩

/-- C1: for each of the five algorithm selectors, a non-empty palette of
byte colors, and an image with positive width and height, the engine
succeeds and every pixel of the output buffer exactly equals some entry of
the input palette. -/
theorem C1_palette_closure (alg : Algo) (pal : List Color) (h w : Nat) (img : Buffer)
    (hpal : pal ≠ []) (hbytes : ∀ p ∈ pal, isByteC p) (hh : 0 < h) (hw : 0 < w) :
    ∃ out : Buffer, runAlgoE alg pal h w img = .ok out ∧
      ∀ y x, y < h → x < w → out y x ∈ pal := by
  have hfs : ∀ y x, y < h → x < w → fsRun pal h w img y x ∈ pal := by
    intro y x hy hx
    exact foldl_step_mem (fsStep pal w h) pal hpal
      (fun b q => fsStep_cur pal w h b q.1 q.2)
      (fsStep_no_backward pal w h)
      (raster h w) (raster_pairwise h w) img (y, x) (mem_raster.mpr ⟨hy, hx⟩)
  have hatk : ∀ y x, y < h → x < w → atkRun pal h w img y x ∈ pal := by
    intro y x hy hx
    exact foldl_step_mem (atkStep pal w h) pal hpal
      (fun b q => atkStep_cur pal w h b q.1 q.2)
      (atkStep_no_backward pal w h)
      (raster h w) (raster_pairwise h w) img (y, x) (mem_raster.mpr ⟨hy, hx⟩)
  cases alg with
  | floydSteinberg =>
    refine ⟨fun y x => clampU8C (fsRun pal h w img y x), ?_, ?_⟩
    · show floydSteinbergE pal h w img = _
      unfold floydSteinbergE
      rw [fsRunE_ok pal hpal h w img]
      rfl
    · intro y x hy hx
      show clampU8C (fsRun pal h w img y x) ∈ pal
      rw [clampU8C_byte (hbytes _ (hfs y x hy hx))]
      exact hfs y x hy hx
  | atkinson =>
    refine ⟨fun y x => clampU8C (atkRun pal h w img y x), ?_, ?_⟩
    · show atkinsonE pal h w img = _
      unfold atkinsonE
      rw [atkRunE_ok pal hpal h w img]
      rfl
    · intro y x hy hx
      show clampU8C (atkRun pal h w img y x) ∈ pal
      rw [clampU8C_byte (hbytes _ (hatk y x hy hx))]
      exact hatk y x hy hx
  | ordered2x2 =>
    refine ⟨fun y x => wrapU8C (orderedPixel 2 pal img y x),
      orderedDitherE_ok 2 (by omega) pal hpal h w img, ?_⟩
    intro y x _ _
    show wrapU8C (orderedPixel 2 pal img y x) ∈ pal
    have hmem : orderedPixel 2 pal img y x ∈ pal := nearestColor_mem pal _ hpal
    rw [wrapU8C_byte (hbytes _ hmem)]
    exact hmem
  | ordered4x4 =>
    refine ⟨fun y x => wrapU8C (orderedPixel 4 pal img y x),
      orderedDitherE_ok 4 (by omega) pal hpal h w img, ?_⟩
    intro y x _ _
    show wrapU8C (orderedPixel 4 pal img y x) ∈ pal
    have hmem : orderedPixel 4 pal img y x ∈ pal := nearestColor_mem pal _ hpal
    rw [wrapU8C_byte (hbytes _ hmem)]
    exact hmem
  | ordered8x8 =>
    refine ⟨fun y x => wrapU8C (orderedPixel 8 pal img y x),
      orderedDitherE_ok 8 (by omega) pal hpal h w img, ?_⟩
    intro y x _ _
    show wrapU8C (orderedPixel 8 pal img y x) ∈ pal
    have hmem : orderedPixel 8 pal img y x ∈ pal := nearestColor_mem pal _ hpal
    rw [wrapU8C_byte (hbytes _ hmem)]
    exact hmem

/-- Witness for C1: Floyd-Steinberg on a 1x1 mid-gray image with the
black-and-white palette. -/
theorem C1_palette_closure_witness :
    ∃ out : Buffer, runAlgoE Algo.floydSteinberg [((0 : ℚ), 0, 0), (255, 255, 255)] 1 1
        (fun _ _ => (100, 100, 100)) = .ok out ∧
      ∀ y x, y < 1 → x < 1 → out y x ∈ ([((0 : ℚ), 0, 0), (255, 255, 255)] : List Color) :=
  C1_palette_closure Algo.floydSteinberg [((0 : ℚ), 0, 0), (255, 255, 255)] 1 1
    (fun _ _ => (100, 100, 100)) (by decide) (by decide) (by decide) (by decide)

/-- Witness for C6 at a concrete tie: palette with two copies of the
minimizing color; the first index wins. -/
theorem C6_nearest_match_witness :
    (([((0 : ℚ), (0 : ℚ), (0 : ℚ)), (10, 10, 10), (10, 10, 10)] : List Color) ≠ []) ∧
    (nearestIdx [((0 : ℚ), (0 : ℚ), (0 : ℚ)), (10, 10, 10), (10, 10, 10)] (9, 9, 9) < 3 ∧
      nearestColor [((0 : ℚ), (0 : ℚ), (0 : ℚ)), (10, 10, 10), (10, 10, 10)] (9, 9, 9) =
        ([((0 : ℚ), (0 : ℚ), (0 : ℚ)), (10, 10, 10), (10, 10, 10)] : List Color).getD
          (nearestIdx [((0 : ℚ), (0 : ℚ), (0 : ℚ)), (10, 10, 10), (10, 10, 10)] (9, 9, 9)) (0, 0, 0) ∧
      (∀ j, j < 3 →
        dist2 (([((0 : ℚ), (0 : ℚ), (0 : ℚ)), (10, 10, 10), (10, 10, 10)] : List Color).getD
            (nearestIdx [((0 : ℚ), (0 : ℚ), (0 : ℚ)), (10, 10, 10), (10, 10, 10)] (9, 9, 9)) (0, 0, 0)) (9, 9, 9) ≤
          dist2 (([((0 : ℚ), (0 : ℚ), (0 : ℚ)), (10, 10, 10), (10, 10, 10)] : List Color).getD j (0, 0, 0)) (9, 9, 9)) ∧
      (∀ j, j < nearestIdx [((0 : ℚ), (0 : ℚ), (0 : ℚ)), (10, 10, 10), (10, 10, 10)] (9, 9, 9) →
        dist2 (([((0 : ℚ), (0 : ℚ), (0 : ℚ)), (10, 10, 10), (10, 10, 10)] : List Color).getD
            (nearestIdx [((0 : ℚ), (0 : ℚ), (0 : ℚ)), (10, 10, 10), (10, 10, 10)] (9, 9, 9)) (0, 0, 0)) (9, 9, 9) <
          dist2 (([((0 : ℚ), (0 : ℚ), (0 : ℚ)), (10, 10, 10), (10, 10, 10)] : List Color).getD j (0, 0, 0)) (9, 9, 9))) :=
  ⟨by decide, by
    simpa using C6_nearest_match [((0 : ℚ), (0 : ℚ), (0 : ℚ)), (10, 10, 10), (10, 10, 10)] (9, 9, 9) (by decide)⟩

/-! ### Flat images whose color is a palette entry (claim C9) -/

lemma nearestColor_pair_fst (A B c : Color) (hge : ¬ dist2 B c < dist2 A c) :
    nearestColor [A, B] c = A := by
  simp [nearestColor, nearestIdx, argmin, argminAux, hge]

lemma nearestColor_pair_snd (A B c : Color) (hlt : dist2 B c < dist2 A c) :
    nearestColor [A, B] c = B := by
  simp [nearestColor, nearestIdx, argmin, argminAux, hlt]

lemma orderedPixel_eq (s : Nat) (pal : List Color) (img : Buffer) (y x : Nat) :
    orderedPixel s pal img y x =
      nearestColor pal (addC (img y x)
        (matAt (patternFor s) (y % (patternFor s).length) (x % (patternFor s).length) * 255 - 128,
         matAt (patternFor s) (y % (patternFor s).length) (x % (patternFor s).length) * 255 - 128,
         matAt (patternFor s) (y % (patternFor s).length) (x % (patternFor s).length) * 255 - 128)) :=
  rfl

set_option maxHeartbeats 1000000 in
lemma fsStep_preserves_const (pal : List Color) (w h : Nat) (c : Color) (hc : c ∈ pal)
    (b : Buffer) (hb : ∀ y x, b y x = c) (q : Nat × Nat) :
    ∀ y1 x1, fsStep pal w h b q y1 x1 = c := by
  intro y1 x1
  have hnc : nearestColor pal c = c := nearestColor_self pal c hc
  simp only [fsStep]
  split_ifs <;>
    simp [setAt, addAt, hb, hnc, subC_self, smulC_zero, addC_zero, smulC_zero', addC_zero'] <;>
    (try split_ifs) <;>
    first
      | rfl
      | omega
      | simp [hb, hnc, smulC_zero', addC_zero']
      | simp_all [smulC_zero', addC_zero']

set_option maxHeartbeats 1000000 in
lemma atkStep_preserves_const (pal : List Color) (w h : Nat) (c : Color) (hc : c ∈ pal)
    (b : Buffer) (hb : ∀ y x, b y x = c) (q : Nat × Nat) :
    ∀ y1 x1, atkStep pal w h b q y1 x1 = c := by
  intro y1 x1
  have hnc : nearestColor pal c = c := nearestColor_self pal c hc
  simp only [atkStep]
  split_ifs <;>
    simp [setAt, addAt, hb, hnc, subC_self, smulC_zero, addC_zero, smulC_zero', addC_zero'] <;>
    (try split_ifs) <;>
    first
      | rfl
      | omega
      | simp [hb, hnc, smulC_zero', addC_zero']
      | simp_all [smulC_zero', addC_zero']

lemma foldl_const (S : Buffer → Nat × Nat → Buffer) (c : Color)
    (hS : ∀ (b : Buffer), (∀ y x, b y x = c) → ∀ (q : Nat × Nat) (y1 x1 : Nat), S b q y1 x1 = c) :
    ∀ (l : List (Nat × Nat)) (b : Buffer), (∀ y x, b y x = c) → ∀ y x, l.foldl S b y x = c := by
  intro l
  induction l with
  | nil => intro b hb; exact hb
  | cons q t ih =>
    intro b hb
    rw [List.foldl_cons]
    exact ih (S b q) (hS b hb q)

/-- C9 (amended): for the two error-diffusion algorithms, dithering a flat
image whose color is already a palette entry (with byte channels) returns
the image unchanged: the match at every pixel reproduces the color, zero
error is propagated, and the final clamp is the identity.  (For the ordered
algorithms the claim fails; see the counterexample.) -/
theorem C9_flat_idempotence (pal : List Color) (h w : Nat) (c : Color)
    (hc : c ∈ pal) (hbyte : isByteC c) :
    (∀ y x, floydSteinberg pal h w (fun _ _ => c) y x = c) ∧
    (∀ y x, atkinson pal h w (fun _ _ => c) y x = c) := by
  have hfs : ∀ y x, fsRun pal h w (fun _ _ => c) y x = c :=
    foldl_const (fsStep pal w h) c
      (fun b hb q => fsStep_preserves_const pal w h c hc b hb q)
      (raster h w) (fun _ _ => c) (fun _ _ => rfl)
  have hatk : ∀ y x, atkRun pal h w (fun _ _ => c) y x = c :=
    foldl_const (atkStep pal w h) c
      (fun b hb q => atkStep_preserves_const pal w h c hc b hb q)
      (raster h w) (fun _ _ => c) (fun _ _ => rfl)
  constructor
  · intro y x
    show clampU8C (fsRun pal h w (fun _ _ => c) y x) = c
    rw [hfs, clampU8C_byte hbyte]
  · intro y x
    show clampU8C (atkRun pal h w (fun _ _ => c) y x) = c
    rw [hatk, clampU8C_byte hbyte]

/-- Counterexample for C9 as stated: ordered 2x2 dithering of the flat
black 1x2-column image with the palette `[(0,0,0), (100,100,100)]`
(black is a palette entry) succeeds but maps pixel `(0, 1)` to
`(100, 100, 100)`, not back to black: the threshold offset at a
high-threshold matrix cell moves the adjusted color closer to the other
palette entry, so the image is not returned unchanged. -/
theorem C9_ordered_counterexample :
    orderedDitherE 2 [((0 : ℚ), 0, 0), (100, 100, 100)] 2 1 (fun _ _ => (0, 0, 0)) =
      .ok (fun y x =>
        wrapU8C (orderedPixel 2 [((0 : ℚ), 0, 0), (100, 100, 100)] (fun _ _ => (0, 0, 0)) y x)) ∧
    wrapU8C (orderedPixel 2 [((0 : ℚ), 0, 0), (100, 100, 100)] (fun _ _ => (0, 0, 0)) 1 0) =
      (100, 100, 100) ∧
    ((100 : ℚ), (100 : ℚ), (100 : ℚ)) ≠ ((0 : ℚ), (0 : ℚ), (0 : ℚ)) ∧
    ((0 : ℚ), (0 : ℚ), (0 : ℚ)) ∈ ([((0 : ℚ), 0, 0), (100, 100, 100)] : List Color) := by
  refine ⟨orderedDitherE_ok 2 (by omega) _ (by decide) 2 1 _, ?_, by decide, by decide⟩
  rw [orderedPixel_eq]
  have hm : matAt (patternFor 2) (1 % (patternFor 2).length) (0 % (patternFor 2).length) = 3 / 4 := by
    norm_num [patternFor, bayer2, normMat, matAt]
  rw [hm]
  have hadj : addC ((fun _ _ => ((0 : ℚ), (0 : ℚ), (0 : ℚ)) : Buffer) 1 0)
      ((3 : ℚ) / 4 * 255 - 128, (3 : ℚ) / 4 * 255 - 128, (3 : ℚ) / 4 * 255 - 128) =
      (253 / 4, 253 / 4, 253 / 4) := by
    norm_num [addC]
  rw [hadj, nearestColor_pair_snd _ _ _ (by norm_num [dist2])]
  rw [wrapU8C_byte (by decide)]

/-! ### Runtime failure characterization (claim C2) -/

lemma raster_eq_nil {h w : Nat} (hz : h = 0 ∨ w = 0) : raster h w = [] :=
  List.eq_nil_iff_forall_not_mem.mpr fun p hp => by
    rcases mem_raster.mp hp with ⟨h1, h2⟩
    omega

lemma fsRunE_err (pal : List Color) (hpal : pal = []) (h w : Nat) (hh : 0 < h) (hw : 0 < w)
    (img : Buffer) : fsRunE pal h w img = .error .valueError := by
  subst hpal
  have hmem : ((0, 0) : Nat × Nat) ∈ raster h w := mem_raster.mpr ⟨hh, hw⟩
  unfold fsRunE
  cases hr : raster h w with
  | nil =>
    rw [hr] at hmem
    simp at hmem
  | cons q t =>
    rfl

lemma atkRunE_err (pal : List Color) (hpal : pal = []) (h w : Nat) (hh : 0 < h) (hw : 0 < w)
    (img : Buffer) : atkRunE pal h w img = .error .valueError := by
  subst hpal
  have hmem : ((0, 0) : Nat × Nat) ∈ raster h w := mem_raster.mpr ⟨hh, hw⟩
  unfold atkRunE
  cases hr : raster h w with
  | nil =>
    rw [hr] at hmem
    simp at hmem
  | cons q t =>
    rfl

lemma fsE_err_iff (pal : List Color) (h w : Nat) (img : Buffer) :
    (floydSteinbergE pal h w img).isOk = false ↔ pal = [] ∧ 0 < h ∧ 0 < w := by
  constructor
  · intro hfail
    by_cases hpal : pal = []
    · by_cases hzero : h = 0 ∨ w = 0
      · exfalso
        have hok : fsRunE pal h w img = .ok img := by
          unfold fsRunE
          rw [raster_eq_nil hzero]
          rfl
        unfold floydSteinbergE at hfail
        rw [hok] at hfail
        simp [Except.isOk, Except.toBool, Except.map] at hfail
      · exact ⟨hpal, by omega, by omega⟩
    · exfalso
      unfold floydSteinbergE at hfail
      rw [fsRunE_ok pal hpal h w img] at hfail
      simp [Except.isOk, Except.toBool, Except.map] at hfail
  · rintro ⟨hpal, hh, hw⟩
    unfold floydSteinbergE
    rw [fsRunE_err pal hpal h w hh hw img]
    rfl

lemma atkE_err_iff (pal : List Color) (h w : Nat) (img : Buffer) :
    (atkinsonE pal h w img).isOk = false ↔ pal = [] ∧ 0 < h ∧ 0 < w := by
  constructor
  · intro hfail
    by_cases hpal : pal = []
    · by_cases hzero : h = 0 ∨ w = 0
      · exfalso
        have hok : atkRunE pal h w img = .ok img := by
          unfold atkRunE
          rw [raster_eq_nil hzero]
          rfl
        unfold atkinsonE at hfail
        rw [hok] at hfail
        simp [Except.isOk, Except.toBool, Except.map] at hfail
      · exact ⟨hpal, by omega, by omega⟩
    · exfalso
      unfold atkinsonE at hfail
      rw [atkRunE_ok pal hpal h w img] at hfail
      simp [Except.isOk, Except.toBool, Except.map] at hfail
  · rintro ⟨hpal, hh, hw⟩
    unfold atkinsonE
    rw [atkRunE_err pal hpal h w hh hw img]
    rfl

lemma orderedE_err_iff (s : Nat) (hs : s = 2 ∨ s = 4 ∨ s = 8) (pal : List Color)
    (h w : Nat) (img : Buffer) :
    (orderedDitherE s pal h w img).isOk = false ↔ pal = [] ∧ 0 < h := by
  have hs0 : s ≠ 0 := by omega
  have hlen : (patternFor s).length = s := by rcases hs with rfl | rfl | rfl <;> rfl
  have hcov : ¬((patternFor s).length * (h / s + 1) < h ∨
      (patternFor s).length * (w / s + 1) < w) := by
    rw [hlen]
    exact not_or.mpr ⟨by have := tiles_cover s h (by omega); omega,
      by have := tiles_cover s w (by omega); omega⟩
  constructor
  · intro hfail
    by_contra hcon
    unfold orderedDitherE at hfail
    rw [if_neg hs0, if_neg hcov, if_neg hcon] at hfail
    simp [Except.isOk, Except.toBool] at hfail
  · intro hpe
    unfold orderedDitherE
    rw [if_neg hs0, if_neg hcov, if_pos hpe]
    rfl

/-- C2 (amended): neither engine validates its inputs up front.  An empty
palette causes a runtime failure exactly when the pixel loop runs (at
least one pixel for error diffusion, at least one row for ordered
dithering); the failure surfaces before any output is produced, so no
buffer is returned.  A zero-width or zero-height image is never rejected:
the loops are skipped and an (empty) buffer is returned successfully. -/
theorem C2_failure_characterization (pal : List Color) (h w : Nat) (img : Buffer) :
    ((floydSteinbergE pal h w img).isOk = false ↔ pal = [] ∧ 0 < h ∧ 0 < w) ∧
    ((atkinsonE pal h w img).isOk = false ↔ pal = [] ∧ 0 < h ∧ 0 < w) ∧
    ((orderedDitherE 2 pal h w img).isOk = false ↔ pal = [] ∧ 0 < h) ∧
    ((orderedDitherE 4 pal h w img).isOk = false ↔ pal = [] ∧ 0 < h) ∧
    ((orderedDitherE 8 pal h w img).isOk = false ↔ pal = [] ∧ 0 < h) :=
  ⟨fsE_err_iff pal h w img, atkE_err_iff pal h w img,
    orderedE_err_iff 2 (by omega) pal h w img,
    orderedE_err_iff 4 (by omega) pal h w img,
    orderedE_err_iff 8 (by omega) pal h w img⟩

/-- Counterexample for C2 as stated: an empty palette together with a
zero-height image is not rejected by any engine — each returns
successfully instead of failing with `InvalidPalette`/`InvalidImage`. -/
theorem C2_counterexample :
    (floydSteinbergE [] 0 3 (fun _ _ => (0, 0, 0))).isOk = true ∧
    (atkinsonE [] 0 3 (fun _ _ => (0, 0, 0))).isOk = true ∧
    (orderedDitherE 4 [] 0 3 (fun _ _ => (0, 0, 0))).isOk = true :=
  ⟨rfl, rfl, rfl⟩

/-! ### The ordered-dither per-pixel formula (claim C7) -/

/-- C7: for each size in {2, 4, 8}, ordered dithering uses exactly the
fixed Bayer matrix of that size (entries over 4, 16, 64 respectively),
computes `t = matrix[y mod size][x mod size] * 255`, adjusts the source
pixel by `t - 128` per channel, matches the unclamped adjusted color
against the palette, and writes the matched color directly to the
output. -/
theorem C7_ordered_formula (pal : List Color) (hpal : pal ≠ []) (h w : Nat) (img : Buffer)
    (y x : Nat) :
    (patternFor 2).length = 2 ∧ (patternFor 4).length = 4 ∧ (patternFor 8).length = 8 ∧
    patternFor 2 = normMat 4 [[0, 2], [3, 1]] ∧
    patternFor 4 = normMat 16 [[0, 8, 2, 10], [12, 4, 14, 6], [3, 11, 1, 9], [15, 7, 13, 5]] ∧
    patternFor 8 = normMat 64
      [[0, 32, 8, 40, 2, 34, 10, 42],
       [48, 16, 56, 24, 50, 18, 58, 26],
       [12, 44, 4, 36, 14, 46, 6, 38],
       [60, 28, 52, 20, 62, 30, 54, 22],
       [3, 35, 11, 43, 1, 33, 9, 41],
       [51, 19, 59, 27, 49, 17, 57, 25],
       [15, 47, 7, 39, 13, 45, 5, 37],
       [63, 31, 55, 23, 61, 29, 53, 21]] ∧
    (∀ s, s = 2 ∨ s = 4 ∨ s = 8 →
      ∃ out, orderedDitherE s pal h w img = .ok out ∧
        out y x = wrapU8C (nearestColor pal (addC (img y x)
          (matAt (patternFor s) (y % s) (x % s) * 255 - 128,
           matAt (patternFor s) (y % s) (x % s) * 255 - 128,
           matAt (patternFor s) (y % s) (x % s) * 255 - 128)))) := by
  refine ⟨rfl, rfl, rfl, rfl, rfl, rfl, ?_⟩
  intro s hs
  refine ⟨_, orderedDitherE_ok s hs pal hpal h w img, ?_⟩
  rcases hs with rfl | rfl | rfl <;> rfl

/-- Witness for C7: the size-2 formula on a 1x1 white image with the
black palette. -/
theorem C7_ordered_formula_witness :
    ∃ out, orderedDitherE 2 blackPal 1 1 whiteImg = .ok out ∧
      out 0 0 = wrapU8C (nearestColor blackPal (addC (whiteImg 0 0)
        (matAt (patternFor 2) (0 % 2) (0 % 2) * 255 - 128,
         matAt (patternFor 2) (0 % 2) (0 % 2) * 255 - 128,
         matAt (patternFor 2) (0 % 2) (0 % 2) * 255 - 128))) :=
  (C7_ordered_formula blackPal (by decide) 1 1 whiteImg 0 0).2.2.2.2.2.2 2 (by omega)

/-! ### The unrecognized-size fallback (claim C8) -/

/-- C8 (amended): when the requested matrix size is not in {2, 4, 8}, the
engine substitutes the size-4 matrix but still computes the threshold
tiling extent from the requested size; whenever that extent covers the
image (and the size is nonzero), the result — success or failure — is
exactly that of a size-4 request.  (When the extent does not cover the
image the call fails instead; see the counterexample.) -/
theorem C8_fallback_cover (s : Nat) (hs2 : s ≠ 2) (hs4 : s ≠ 4) (hs8 : s ≠ 8) (hs0 : s ≠ 0)
    (pal : List Color) (h w : Nat) (img : Buffer)
    (hch : ¬ 4 * (h / s + 1) < h) (hcw : ¬ 4 * (w / s + 1) < w) :
    orderedDitherE s pal h w img = orderedDitherE 4 pal h w img := by
  have hpat : patternFor s = bayer4 := by
    unfold patternFor
    rw [if_neg hs2, if_neg hs4, if_neg hs8]
  have hlens : (patternFor s).length = 4 := by rw [hpat]; rfl
  have hcovs : ¬((patternFor s).length * (h / s + 1) < h ∨
      (patternFor s).length * (w / s + 1) < w) := by
    rw [hlens]
    exact not_or.mpr ⟨hch, hcw⟩
  have hcov4 : ¬((patternFor 4).length * (h / 4 + 1) < h ∨
      (patternFor 4).length * (w / 4 + 1) < w) := by
    rw [show (patternFor 4).length = 4 from rfl]
    exact not_or.mpr ⟨by have := tiles_cover 4 h (by omega); omega,
      by have := tiles_cover 4 w (by omega); omega⟩
  unfold orderedDitherE
  rw [if_neg hs0, if_neg (show (4 : Nat) ≠ 0 by omega), if_neg hcovs, if_neg hcov4]
  by_cases hpe : pal = [] ∧ 0 < h
  · rw [if_pos hpe, if_pos hpe]
  · rw [if_neg hpe, if_neg hpe]
    congr 1
    funext y1 x1
    rw [orderedPixel_eq, orderedPixel_eq, hpat]
    rfl

/-- Counterexample for C8 as stated: requesting size 5 on a 9x9 image is
not "the same as size 4": the threshold map is tiled `9 // 5 + 1 = 2`
times from the 4x4 fallback matrix, covering only 8 of 9 rows, so the
engine fails with a broadcast error while size 4 succeeds. -/
theorem C8_counterexample :
    orderedDitherE 5 [((0 : ℚ), 0, 0)] 9 9 (fun _ _ => (0, 0, 0)) = .error .valueError ∧
    (orderedDitherE 4 [((0 : ℚ), 0, 0)] 9 9 (fun _ _ => (0, 0, 0))).isOk = true := by
  constructor
  · unfold orderedDitherE
    rw [if_neg (show (5 : Nat) ≠ 0 by omega), if_pos (by decide)]
  · rfl

/-- Witness for C8: size 3 on a 5x5 image agrees with size 4. -/
theorem C8_fallback_cover_witness :
    orderedDitherE 3 [((0 : ℚ), 0, 0)] 5 5 (fun _ _ => (0, 0, 0)) =
      orderedDitherE 4 [((0 : ℚ), 0, 0)] 5 5 (fun _ _ => (0, 0, 0)) :=
  C8_fallback_cover 3 (by omega) (by omega) (by omega) (by omega)
    [((0 : ℚ), 0, 0)] 5 5 (fun _ _ => (0, 0, 0)) (by decide) (by decide)

/-- Witness for C9 on a concrete flat black image with a two-entry
palette. -/
theorem C9_flat_idempotence_witness :
    (∀ y x, floydSteinberg [((0 : ℚ), 0, 0), (100, 100, 100)] 2 2
        (fun _ _ => ((0 : ℚ), 0, 0)) y x = ((0 : ℚ), 0, 0)) ∧
    (∀ y x, atkinson [((0 : ℚ), 0, 0), (100, 100, 100)] 2 2
        (fun _ _ => ((0 : ℚ), 0, 0)) y x = ((0 : ℚ), 0, 0)) :=
  C9_flat_idempotence [((0 : ℚ), 0, 0), (100, 100, 100)] 2 2 ((0 : ℚ), 0, 0)
    (by decide) (by decide)

/-! ### Unclamped matching and the single global clamp (claim C5) -/

/-- Per-channel clamp of a working value to [0, 255].  Modelled from the
spec: the description of per-pixel clamping before matching, the
alternative the source does NOT implement (flagged in the spec as the
"more defensible design"); used only as a foil to show that the code
matches on the unclamped working value. -/
def clampC (c : Color) : Color := (clampQ c.1, clampQ c.2.1, clampQ c.2.2)

/-- A 1x2 all-`(255, 0, 0)` image whose second pixel accumulates an
out-of-range working value. -/
def redImg : Buffer := fun _ _ => (255, 0, 0)

/-- A palette whose nearest-color match flips depending on whether the
out-of-range working value is clamped before matching. -/
def flipPal : List Color := [(255, 255, 30), (0, 0, 0)]

/-- C5: error-diffusion matching uses the unclamped accumulated working
value, which may exceed 255, and output values are clamped exactly once,
globally, after the whole image is processed.  Concretely, on the 1x2
image `redImg` with palette `flipPal`, pixel `(0, 1)` is matched while its
working value is `(366.5625, 0, 0)` (first channel above 255): the
engines produce `(255, 255, 30)`, the nearest entry to the unclamped
value, whereas matching the clamped value would give `(0, 0, 0)`. -/
theorem C5_unclamped_matching :
    (∀ (pal : List Color) (h w : Nat) (img : Buffer) (y x : Nat),
      floydSteinberg pal h w img y x = clampU8C (fsRun pal h w img y x) ∧
      atkinson pal h w img y x = clampU8C (atkRun pal h w img y x)) ∧
    fsStep flipPal 2 1 redImg (0, 0) 0 1 = (5865 / 16, 0, 0) ∧
    ((255 : ℚ) < 5865 / 16) ∧
    nearestColor flipPal (5865 / 16, 0, 0) = (255, 255, 30) ∧
    nearestColor flipPal (clampC (5865 / 16, 0, 0)) = (0, 0, 0) ∧
    floydSteinberg flipPal 1 2 redImg 0 1 = (255, 255, 30) ∧
    atkStep flipPal 2 1 redImg (0, 0) 0 1 = (2295 / 8, 0, 0) ∧
    nearestColor flipPal (2295 / 8, 0, 0) = (255, 255, 30) ∧
    nearestColor flipPal (clampC (2295 / 8, 0, 0)) = (0, 0, 0) ∧
    atkinson flipPal 1 2 redImg 0 1 = (255, 255, 30) := by
  have hn1 : nearestColor flipPal ((255 : ℚ), 0, 0) = ((0 : ℚ), 0, 0) := by
    show nearestColor [((255 : ℚ), 255, 30), ((0 : ℚ), 0, 0)] ((255 : ℚ), 0, 0) = _
    exact nearestColor_pair_snd _ _ _ (by norm_num [dist2])
  have hnA : nearestColor flipPal ((5865 / 16 : ℚ), 0, 0) = ((255 : ℚ), 255, 30) := by
    show nearestColor [((255 : ℚ), 255, 30), ((0 : ℚ), 0, 0)] ((5865 / 16 : ℚ), 0, 0) = _
    exact nearestColor_pair_fst _ _ _ (by norm_num [dist2])
  have hnA8 : nearestColor flipPal ((2295 / 8 : ℚ), 0, 0) = ((255 : ℚ), 255, 30) := by
    show nearestColor [((255 : ℚ), 255, 30), ((0 : ℚ), 0, 0)] ((2295 / 8 : ℚ), 0, 0) = _
    exact nearestColor_pair_fst _ _ _ (by norm_num [dist2])
  have hcl : clampC ((5865 / 16 : ℚ), 0, 0) = ((255 : ℚ), 0, 0) := by
    norm_num [clampC, clampQ, min_def, max_def]
  have hcl8 : clampC ((2295 / 8 : ℚ), 0, 0) = ((255 : ℚ), 0, 0) := by
    norm_num [clampC, clampQ, min_def, max_def]
  have hb1 : fsStep flipPal 2 1 redImg (0, 0) 0 1 = (5865 / 16, 0, 0) := by
    rw [fsStep_right flipPal 2 1 redImg 0 0 (by omega)]
    show addC ((255 : ℚ), 0, 0)
      (smulC (7 / 16) (subC ((255 : ℚ), 0, 0) (nearestColor flipPal ((255 : ℚ), 0, 0)))) = _
    rw [hn1]
    norm_num [addC, smulC, subC]
  have hb18 : atkStep flipPal 2 1 redImg (0, 0) 0 1 = (2295 / 8, 0, 0) := by
    rw [atkStep_r1 flipPal 2 1 redImg 0 0 (by omega)]
    show addC ((255 : ℚ), 0, 0)
      (smulC (1 / 8) (subC ((255 : ℚ), 0, 0) (nearestColor flipPal ((255 : ℚ), 0, 0)))) = _
    rw [hn1]
    norm_num [addC, smulC, subC]
  refine ⟨fun pal h w img y x => ⟨rfl, rfl⟩, hb1, by norm_num, hnA, ?_, ?_, hb18, hnA8, ?_, ?_⟩
  · rw [hcl, hn1]
  · show clampU8C (fsRun flipPal 1 2 redImg 0 1) = _
    have hout : fsRun flipPal 1 2 redImg 0 1 = ((255 : ℚ), 255, 30) := by
      show fsStep flipPal 2 1 (fsStep flipPal 2 1 redImg (0, 0)) (0, 1) 0 1 = _
      rw [fsStep_cur flipPal 2 1 _ 0 1, hb1, hnA]
    rw [hout, clampU8C_byte (by decide)]
  · rw [hcl8, hn1]
  · show clampU8C (atkRun flipPal 1 2 redImg 0 1) = _
    have hout : atkRun flipPal 1 2 redImg 0 1 = ((255 : ℚ), 255, 30) := by
      show atkStep flipPal 2 1 (atkStep flipPal 2 1 redImg (0, 0)) (0, 1) 0 1 = _
      rw [atkStep_cur flipPal 2 1 _ 0 1, hb18, hnA8]
    rw [hout, clampU8C_byte (by decide)]

end ZineDither
